import Mathlib

/-
Verification of the formula compiler: lexer, shunting-yard parser,
categorical coder and term evaluator, embedded shallowly from the Go
source.  Numeric columns ([]float64 in the source) are modelled as lists of
integers: the only arithmetic the evaluator ever performs on column
values is elementwise multiplication and the constants 0 and 1, all
concrete data in the claims is small-integer valued, and float64
arithmetic is exact there.
Go maps are modelled as association lists whose lookup returns the most
recent binding; Go panics are modelled as a distinct error constructor,
since a panic crashes the program instead of returning an error value.
-/

namespace FormulaGo

/-- Token kinds that can appear in a formula (Go constants vname, leftp,
rightp, times, plus, icept, funct). -/
inductive TokType where
  | vname
  | leftp
  | rightp
  | times
  | plus
  | icept
  | funct
deriving DecidableEq

/-- Embedding of the Go token struct: a symbol plus the fields name,
funcn and arg, which default to the Go zero value "" when unused. -/
structure Token where
  symbol : TokType
  name : String := ""
  funcn : String := ""
  arg : String := ""
deriving DecidableEq

/-- Outcome of a Go failure: goErr is an error value returned to the
caller; goPanic is a runtime panic, which crashes the program rather
than being returned. -/
inductive GoError where
  | goErr (msg : String)
  | goPanic (msg : String)
deriving DecidableEq

/-- Decidable equality of Except values with decidable components, used
to settle concrete evaluations of the embedding. -/
instance {ε α : Type} [DecidableEq ε] [DecidableEq α] : DecidableEq (Except ε α) :=
  fun x y =>
    match x, y with
    | .ok a, .ok b =>
        if h : a = b then .isTrue (by rw [h]) else .isFalse (by simp [h])
    | .error a, .error b =>
        if h : a = b then .isTrue (by rw [h]) else .isFalse (by simp [h])
    | .ok _, .error _ => .isFalse (by simp)
    | .error _, .ok _ => .isFalse (by simp)

/-- A value returned by DataSource.Get, which has Go type interface; it
can be nil, a float column, a string column, or a value of some other
type. -/
inductive GoVal where
  | vnil
  | vfloat (xs : List Int)
  | vstr (ss : List String)
  | vother
deriving DecidableEq

/-- ColSet represents a design matrix: an ordered set of named numeric
data columns. -/
structure ColSet where
  Names : List String
  Data : List (List Int)
deriving DecidableEq

/-- Func is a transformation of a numeric column to a column set. -/
def Fn : Type := String → List Int → ColSet

/-- DataSource: the names of the variables and a lookup for the data of
one variable. -/
structure DataSource where
  names : List String
  get : String → GoVal

/-- Config: reference levels for string variables and the registry of
transformation functions. -/
structure Config where
  RefLevels : List (String × String) := []
  Funcs : List (String × Fn) := []

/-- Extend a ColSet with the data of another ColSet (Go ColSet.Extend).
The membership map mp is built from the names of c once, before the
append loop, and is never updated inside it, exactly as in the source:
duplicates inside o that are absent from c are all appended. -/
def ColSet.Extend (c o : ColSet) : ColSet :=
  let keep := (o.Names.zip o.Data).filter (fun p => !(c.Names.contains p.1))
  { Names := c.Names ++ keep.map Prod.fst
    Data := c.Data ++ keep.map Prod.snd }

/-! ## Lexer -/

/-- Characters that may continue an identifier: letters, digits or the
underscore (letters are modelled as ASCII letters; every formula in the
claims is ASCII). -/
def isValidContinuation (r : Char) : Bool :=
  r.isAlpha || r.isDigit || r == '_'

/-- The single-character dispatch of Go lex: the four symbols, the digit
1 as intercept marker, the skipped blank (none), or a lexical error.
Identifier starts are handled by the caller. -/
def symTok (r : Char) : Except GoError (Option Token) :=
  if r == '(' then .ok (some ⟨.leftp, "", "", ""⟩)
  else if r == ')' then .ok (some ⟨.rightp, "", "", ""⟩)
  else if r == '+' then .ok (some ⟨.plus, "", "", ""⟩)
  else if r == '*' then .ok (some ⟨.times, "", "", ""⟩)
  else if r == '1' then .ok (some ⟨.icept, "", "", ""⟩)
  else if r == ' ' then .ok none
  else .error (.goErr ("Invalid formula, symbol " ++ String.mk [r] ++ " is not known."))

/-- The character loop of Go lex as a state machine: the first argument
holds the characters (reversed) of an identifier in progress, if any.
The source reads the run that ends an identifier, unreads it and
dispatches on it again at the top of the loop; since a character that
ends an identifier can be neither an identifier character nor the digit
1, that re-dispatch is exactly symTok and is inlined here. -/
def lexLoop : Option (List Char) → List Char → Except GoError (List Token)
  | none, [] => .ok []
  | some acc, [] => .ok [⟨.vname, String.mk acc.reverse, "", ""⟩]
  | none, r :: rest =>
    if r.isAlpha || r == '_' then lexLoop (some [r]) rest
    else do
      let ot ← symTok r
      (lexLoop none rest).map (fun ts =>
        match ot with
        | some t => t :: ts
        | none => ts)
  | some acc, r :: rest =>
    if isValidContinuation r then lexLoop (some (r :: acc)) rest
    else do
      let ot ← symTok r
      (lexLoop none rest).map (fun ts =>
        ⟨.vname, String.mk acc.reverse, "", ""⟩ ::
          (match ot with
           | some t => t :: ts
           | none => ts))

/-- Go lex before the function post-pass. -/
def lexChars (cs : List Char) : Except GoError (List Token) :=
  lexLoop none cs

/-- Go lexFuncs: the post-pass over the flat token sequence.  At a
position holding an identifier followed by a left paren, the code only
checks that the token at offset 3 exists and is a right paren; the token
at offset 2 is used for the argument whatever its kind. -/
def lexFuncs : List Token → Except GoError (List Token)
  | [] => .ok []
  | t0 :: t1 :: t2 :: t3 :: rest =>
    if t0.symbol == .vname && t1.symbol == .leftp then
      if t3.symbol == .rightp then
        (lexFuncs rest).map (fun ts =>
          ⟨.funct, t0.name ++ "(" ++ t2.name ++ ")", t0.name, t2.name⟩ :: ts)
      else .error (.goErr "Malformed function call")
    else (lexFuncs (t1 :: t2 :: t3 :: rest)).map (fun ts => t0 :: ts)
  | t0 :: t1 :: rest =>
    if t0.symbol == .vname && t1.symbol == .leftp then
      .error (.goErr "Malformed function call")
    else (lexFuncs (t1 :: rest)).map (fun ts => t0 :: ts)
  | [t0] => .ok [t0]

/-- Go lex: the character pass followed by the function post-pass. -/
def lex (input : String) : Except GoError (List Token) := do
  let ts ← lexChars input.toList
  lexFuncs ts

/-- Go checkParens: equal counts of left and right parens. -/
def checkParens (fml : String) : Bool :=
  (fml.toList.filter (fun c => c == '(')).length ==
    (fml.toList.filter (fun c => c == ')')).length

/-! ## Shunting-yard parser -/

/-- Operator precedence values; lower number is higher precedence.  The
Go map lookup returns the zero value 0 for any other symbol. -/
def precedence : TokType → Nat
  | .times => 0
  | .plus => 1
  | _ => 0

/-- isOperator returns true if the token is an operator (times or plus). -/
def isOperator (tok : Token) : Bool :=
  tok.symbol == .times || tok.symbol == .plus

/-- The inner loop of Go parse for an operator token: pop operators whose
precedence value is strictly smaller (binding strictly tighter) to the
output; stop at a non-operator, at an empty stack, or at an operator of
equal or larger precedence value. -/
def popOps (tok : Token) : List Token → List Token → List Token × List Token
  | [], output => ([], output)
  | last :: stack, output =>
    if !(isOperator last) then (last :: stack, output)
    else if precedence tok.symbol > precedence last.symbol then
      popOps tok stack (output ++ [last])
    else (last :: stack, output)

/-- The inner loop of Go parse for a right paren: pop to the output until
a left paren is found and discarded; an empty stack is an unbalanced
parentheses error. -/
def popParen : List Token → List Token → Except GoError (List Token × List Token)
  | [], _ => .error (.goErr "Unbalanced parentheses")
  | last :: stack, output =>
    if last.symbol == .leftp then .ok (stack, output)
    else popParen stack (output ++ [last])

/-- The token loop of Go parse: operands go to the output, operators go
through popOps, parens manage the stack. -/
def parseLoopSY : List Token → List Token → List Token →
    Except GoError (List Token × List Token)
  | [], stack, output => .ok (stack, output)
  | tok :: rest, stack, output =>
    match tok.symbol with
    | .vname => parseLoopSY rest stack (output ++ [tok])
    | .funct => parseLoopSY rest stack (output ++ [tok])
    | .icept => parseLoopSY rest stack (output ++ [tok])
    | .times =>
        let so := popOps tok stack output
        parseLoopSY rest (tok :: so.1) so.2
    | .plus =>
        let so := popOps tok stack output
        parseLoopSY rest (tok :: so.1) so.2
    | .leftp => parseLoopSY rest (tok :: stack) output
    | .rightp => do
        let so ← popParen stack output
        parseLoopSY rest so.1 so.2

/-- The final loop of Go parse: drain the stack into the output; a
leftover paren is a mismatched parentheses error. -/
def drainStack : List Token → List Token → Except GoError (List Token)
  | [], output => .ok output
  | last :: stack, output =>
    if last.symbol == .leftp || last.symbol == .rightp then
      .error (.goErr "mismatched parentheses")
    else drainStack stack (output ++ [last])

/-- Go parse: convert the infix token sequence to reverse Polish order. -/
def parse (input : List Token) : Except GoError (List Token) := do
  let so ← parseLoopSY input [] []
  drainStack so.1 so.2

/-! ## Categorical coder -/

/-- The observation loop of Go setCodes for one string variable: each
distinct value other than ref gets the next unused code (the current
size of the table) and a display name "na[value]", in first-seen
order. -/
def setCodesVar (ref na : String) : List String → List (String × Nat) → List String →
    List (String × Nat) × List String
  | [], codes, fns => (codes, fns)
  | x :: rest, codes, fns =>
    if x == ref then setCodesVar ref na rest codes fns
    else if (codes.lookup x).isSome then setCodesVar ref na rest codes fns
    else setCodesVar ref na rest (codes ++ [(x, codes.length)])
        (fns ++ [na ++ "[" ++ x ++ "]"])

/-- The variable loop of Go setCodes.  A nil value from Get breaks out of
the whole scan; non-string values are skipped.  The reference level of a
variable is the configured one, with the Go map zero value "" when none
is configured. -/
def setCodesLoop (ds : DataSource) (refLevels : List (String × String)) :
    List String → List (String × List (String × Nat)) → List (String × List String) →
    List (String × List (String × Nat)) × List (String × List String)
  | [], codes, fns => (codes, fns)
  | na :: rest, codes, fns =>
    match ds.get na with
    | .vnil => (codes, fns)
    | .vstr v =>
        let ref := (refLevels.lookup na).getD ""
        let cur := (codes.lookup na).getD []
        let curF := (fns.lookup na).getD []
        let cf := setCodesVar ref na v cur curF
        setCodesLoop ds refLevels rest ((na, cf.1) :: codes) ((na, cf.2) :: fns)
    | _ => setCodesLoop ds refLevels rest codes fns

/-- Go setCodes: scan all variables of the data source. -/
def setCodes (ds : DataSource) (refLevels : List (String × String)) :
    List (String × List (String × Nat)) × List (String × List String) :=
  setCodesLoop ds refLevels ds.names [] []

/-- Write a 1 at entry (c, i) of the data matrix.  Go dat[c][i] = 1
panics when c is out of range; rows always have the observation count as
length, so i is in range whenever c is. -/
def setEntry (dat : List (List Int)) (c i : Nat) : Except GoError (List (List Int)) :=
  if c < dat.length then .ok (dat.set c ((dat.getD c []).set i 1))
  else .error (.goPanic "index out of range")

/-- The observation loop of Go codeStrings: non-reference observations
write a 1 into the row of their code (a missing code is the Go map zero
value 0). -/
def codeStringsLoop (codes : List (String × Nat)) (ref : String) :
    List String → Nat → List (List Int) → Except GoError (List (List Int))
  | [], _, dat => .ok dat
  | x :: rest, i, dat =>
    if x == ref then codeStringsLoop codes ref rest (i + 1) dat
    else do
      let dat2 ← setEntry dat ((codes.lookup x).getD 0) i
      codeStringsLoop codes ref rest (i + 1) dat2

/-- Go codeStrings: one all-zero row per code, then the indicator
writes; the resulting ColSet carries the display names recorded by
setCodes. -/
def codeStrings (codes : List (String × Nat)) (fns : List String) (ref : String)
    (s : List String) : Except GoError ColSet := do
  let dat := codes.map (fun _ => List.replicate s.length (0 : Int))
  let dat2 ← codeStringsLoop codes ref s 0 dat
  .ok { Names := fns, Data := dat2 }

/-! ## Term evaluator -/

/-- The read-only fields of the Go Parser that evaluation consults. -/
structure Env where
  RawData : DataSource
  refLevels : List (String × String)
  codes : List (String × List (String × Nat))
  facNames : List (String × List String)
  funcs : List (String × Fn)

/-- The working cache from symbolic names to column sets, scoped to one
formula evaluation (Go Parser.workData). -/
abbrev WorkData := List (String × ColSet)

/-- The ColSet a raw variable converts to: the body of Go convertColumn
after the cache check.  nil data is a not-found error; string data goes
through codeStrings with the effective reference level; float data
becomes a single column named after the variable; any other type is an
unknown-type error. -/
def convVal (env : Env) (na : String) : Except GoError ColSet :=
  match env.RawData.get na with
  | .vnil => .error (.goErr ("Variable " ++ na ++ " not found."))
  | .vstr s =>
      let ref := (env.refLevels.lookup na).getD ""
      codeStrings ((env.codes.lookup na).getD []) ((env.facNames.lookup na).getD []) ref s
  | .vfloat s => .ok { Names := [na], Data := [s] }
  | .vother => .error (.goErr ("unknown type for variable " ++ na ++ " in convertColumn"))

/-- Go convertColumn: only converts once; a cached name is left alone. -/
def convertColumn (env : Env) (wd : WorkData) (na : String) : Except GoError WorkData :=
  if (List.lookup na wd).isSome then .ok wd
  else (convVal env na).map (fun cs => (na, cs) :: wd)

/-- Go checkConv: convert each name in turn; the first failure stops the
loop, keeping the conversions made before it, and is reported (the
operator branch of doFormula discards the reported error value). -/
def checkConv (env : Env) : WorkData → List String → WorkData × Option GoError
  | wd, [] => (wd, none)
  | wd, x :: rest =>
    match convertColumn env wd x with
    | .ok wd2 => checkConv env wd2 rest
    | .error e => (wd, some e)

/-- All pairwise products of two named column lists, left-major: the
inner loops of Go doTimes. -/
def crossPairs : List (String × List Int) → List (String × List Int) → List (String × List Int)
  | [], _ => []
  | p :: rest, l2 =>
    l2.map (fun q => (p.1 ++ ":" ++ q.1, List.zipWith (fun a b => a * b) p.2 q.2))
      ++ crossPairs rest l2

/-- The pure part of Go doPlus: concatenate names and columns. -/
def doPlusCS (d1 d2 : ColSet) : ColSet :=
  { Names := d1.Names ++ d2.Names, Data := d1.Data ++ d2.Data }

/-- The pure part of Go doTimes: all pairwise products with names joined
by a colon. -/
def doTimesCS (d1 d2 : ColSet) : ColSet :=
  let pairs := crossPairs (d1.Names.zip d1.Data) (d2.Names.zip d2.Data)
  { Names := pairs.map Prod.fst, Data := pairs.map Prod.snd }

/-- Go doPlus reads both operands from workData; a missing entry is a
nil map read giving a nil pointer, and reading its fields panics. -/
def doPlus (wd : WorkData) (a b : String) : Except GoError ColSet :=
  match List.lookup a wd, List.lookup b wd with
  | some d1, some d2 => .ok (doPlusCS d1 d2)
  | _, _ => .error (.goPanic "nil pointer dereference")

/-- Go doTimes, with the same missing-entry behavior as doPlus. -/
def doTimes (wd : WorkData) (a b : String) : Except GoError ColSet :=
  match List.lookup a wd, List.lookup b wd with
  | some d1, some d2 => .ok (doTimesCS d1 d2)
  | _, _ => .error (.goPanic "nil pointer dereference")

/-- The intercept column: nobs ones under the name icept. -/
def iceptCol (nobs : Nat) : ColSet :=
  { Names := ["icept"], Data := [List.replicate nobs (1 : Int)] }

/-- Go createIcept: when no icept entry is cached, build an all-ones
column whose length is the observation count of the first variable of
the data source and cache it, returning true; otherwise return false.
An empty name list or a first variable of unsupported type panics. -/
def createIcept (env : Env) (wd : WorkData) : Except GoError (WorkData × Bool) :=
  if (List.lookup "icept" wd).isSome then .ok (wd, false)
  else
    match env.RawData.names with
    | [] => .error (.goPanic "index out of range")
    | na0 :: _ =>
      match env.RawData.get na0 with
      | .vfloat x => .ok (("icept", iceptCol x.length) :: wd, true)
      | .vstr x => .ok (("icept", iceptCol x.length) :: wd, true)
      | _ => .error (.goPanic "unknown type")

/-- Go runFuncs: apply every registered function named by a funct token
to the raw data of its argument.  An unregistered name is an error; any
argument data that is not a float column panics. -/
def runFuncs (env : Env) : WorkData → List Token → Except GoError WorkData
  | wd, [] => .ok wd
  | wd, tok :: rest =>
    if tok.symbol == .funct then
      match List.lookup tok.funcn env.funcs with
      | none => .error (.goErr ("Function " ++ tok.funcn ++ " not found"))
      | some f =>
        match env.RawData.get tok.arg with
        | .vfloat x => runFuncs env ((tok.name, f tok.name x) :: wd) rest
        | _ => .error (.goPanic "funtions can only be applied to numeric data")
    else runFuncs env wd rest

/-- The token loop of Go doFormula.  ix is the running token index used
to synthesize temporary names; the boolean last of the source is the
emptiness of the remaining token list.  The operator branch discards the
error value of checkConv (a panic still unwinds); the vname branch does
the same. -/
def doFormulaLoop (env : Env) : List Token → Nat → ColSet → WorkData → List String →
    Except GoError (ColSet × WorkData × List String)
  | [], _, data, wd, stack => .ok (data, wd, stack)
  | tok :: rest, ix, data, wd, stack =>
    if isOperator tok then
      match stack with
      | arg2 :: arg1 :: stack2 =>
        let we := checkConv env wd [arg1, arg2]
        match we.2 with
        | some (.goPanic m) => .error (.goPanic m)
        | _ => do
          let rslt ← match tok.symbol with
            | .plus => doPlus we.1 arg1 arg2
            | .times => doTimes we.1 arg1 arg2
            | _ => .error (.goErr "Invalid symbol")
          let data2 := if rest.isEmpty then data.Extend rslt else data
          let nm := "tmp" ++ toString ix
          doFormulaLoop env rest (ix + 1) data2 ((nm, rslt) :: we.1) (nm :: stack2)
      | _ => .error (.goErr "not enough arguments")
    else
      match tok.symbol with
      | .icept => do
          let wq ← createIcept env wd
          doFormulaLoop env rest (ix + 1) data wq.1
            (if wq.2 then "icept" :: stack else stack)
      | .vname =>
          let we := checkConv env wd [tok.name]
          match we.2 with
          | some (.goPanic m) => .error (.goPanic m)
          | _ => doFormulaLoop env rest (ix + 1) data we.1 (tok.name :: stack)
      | .funct => doFormulaLoop env rest (ix + 1) data wd (tok.name :: stack)
      | _ => doFormulaLoop env rest (ix + 1) data wd stack

/-- Go doFormula: run the function pre-pass, then either short-circuit a
single-token sequence, or walk the tokens and require exactly one
residual stack entry.  Returns the new accumulator. -/
def doFormula (env : Env) (data : ColSet) (wd0 : WorkData) (rpn : List Token) :
    Except GoError ColSet := do
  let wd ← runFuncs env wd0 rpn
  match rpn with
  | [tok] =>
      (match checkConv env wd [tok.name] with
       | (_, some e) => .error e
       | (wd2, none) =>
          match List.lookup tok.name wd2 with
          | some cs => .ok (data.Extend cs)
          | none => .error (.goPanic "nil pointer dereference"))
  | _ => do
      let r ← doFormulaLoop env rpn 0 data wd []
      if r.2.2.length != 1 then .error (.goErr "invalid formula")
      else .ok r.1

/-- The compiled parser: formulas, data source, configuration, the
per-formula reverse Polish sequences, and the mutable evaluation
state. -/
structure Parser where
  Formulas : List String
  RawData : DataSource
  refLevels : List (String × String)
  codes : List (String × List (String × Nat))
  facNames : List (String × List String)
  funcs : List (String × Fn)
  data : ColSet
  ErrorState : Option GoError
  workData : WorkData
  rpn : List (List Token)
  rawNames : List String
  names : List String

/-- The read-only evaluation environment of a parser. -/
def Parser.env (fp : Parser) : Env :=
  { RawData := fp.RawData, refLevels := fp.refLevels, codes := fp.codes,
    facNames := fp.facNames, funcs := fp.funcs }

/-- The formula loop of Go Parser.Parse: each formula starts from a
fresh working cache and extends the shared accumulator. -/
def parseFormulas (env : Env) : List (List Token) → ColSet → Except GoError ColSet
  | [], data => .ok data
  | rpn :: rest, data => do
      let d2 ← doFormula env data [] rpn
      parseFormulas env rest d2

/-- Go Parser.Parse: reset the accumulator, evaluate every formula, and
return the accumulated ColSet together with the mutated parser (data set
to the result, working cache dropped, raw names recorded). -/
def Parser.Parse (fp : Parser) : Except GoError (ColSet × Parser) := do
  let c ← parseFormulas fp.env fp.rpn { Names := [], Data := [] }
  .ok (c, { fp with data := c, workData := [], rawNames := fp.RawData.names })

/-- Go Parser.init: per formula, the paren precheck, lexing and parsing;
then the categorical scan. -/
def initFormulas : List String → Except GoError (List (List Token))
  | [] => .ok []
  | fml :: rest =>
    if !(checkParens fml) then
      .error (.goErr ("Unbalanced parentheses in " ++ fml))
    else do
      let ts ← lex fml
      let rpn ← parse ts
      let rpns ← initFormulas rest
      .ok (rpn :: rpns)

/-- Go NewMulti: build the parser and run init; a compilation error
yields no parser at all. -/
def NewMulti (formulas : List String) (rawdata : DataSource) (config : Config) :
    Except GoError Parser := do
  let rpns ← initFormulas formulas
  let cf := setCodes rawdata config.RefLevels
  .ok { Formulas := formulas, RawData := rawdata, refLevels := config.RefLevels,
        codes := cf.1, facNames := cf.2, funcs := config.Funcs,
        data := { Names := [], Data := [] }, ErrorState := none, workData := [],
        rpn := rpns, rawNames := [], names := [] }

/-- Go New: the single-formula constructor, identical to NewMulti on a
one-element list. -/
def New (formula : String) (rawdata : DataSource) (config : Config) :
    Except GoError Parser :=
  NewMulti [formula] rawdata config

/-- Compile one formula and evaluate it, as the callers of the package
do: New followed by Parse. -/
def runSingle (formula : String) (ds : DataSource) (config : Config) :
    Except GoError ColSet := do
  let fp ← New formula ds config
  let cp ← fp.Parse
  .ok cp.1

/-- Compile several formulas together and evaluate them. -/
def runMulti (formulas : List String) (ds : DataSource) (config : Config) :
    Except GoError ColSet := do
  let fp ← NewMulti formulas ds config
  let cp ← fp.Parse
  .ok cp.1

/-! ## Concrete data used by the claims -/

/-- A variable token. -/
def tvar (s : String) : Token := ⟨.vname, s, "", ""⟩

/-- The plus token. -/
def tplus : Token := ⟨.plus, "", "", ""⟩

/-- The times token. -/
def ttimes : Token := ⟨.times, "", "", ""⟩

/-- The intercept token. -/
def ticept : Token := ⟨.icept, "", "", ""⟩

/-- The left paren token. -/
def tlp : Token := ⟨.leftp, "", "", ""⟩

/-- The right paren token. -/
def trp : Token := ⟨.rightp, "", "", ""⟩

/-- Lex and parse one formula, as Parser.init does. -/
def compileRPN (s : String) : Except GoError (List Token) := do
  let ts ← lex s
  parse ts

/-- The data source of the concrete scenario: x1 numeric with values
0..4, x2 categorical with values 0,0,0,1,1. -/
def ds3 : DataSource :=
  { names := ["x1", "x2"]
    get := fun na =>
      if na == "x1" then .vfloat [0, 1, 2, 3, 4]
      else if na == "x2" then .vstr ["0", "0", "0", "1", "1"]
      else .vnil }

/-- The square transformation of the test suite. -/
def sqFn : Fn := fun na x => { Names := [na], Data := [x.map (fun v => v * v)] }

/-- Modelled from the spec: the distinct observed values other than the
reference level, in first-seen observation order. -/
def specFirstSeen (ref : String) : List String → List String
  | [] => []
  | x :: rest =>
    if x = ref then specFirstSeen ref rest
    else x :: specFirstSeen ref (rest.filter (fun y => y ≠ x))
termination_by l => l.length
decreasing_by
  all_goals simp only [List.length_cons, Nat.lt_succ_iff]
  all_goals first
    | exact Nat.le_refl _
    | exact List.length_filter_le _ _

/-- The data source of the C8 witness: one variable whose observations
all equal the configured reference level. -/
def dsW8 : DataSource :=
  { names := ["x"], get := fun n => if n == "x" then .vstr ["b", "b"] else .vnil }

/-- The data source of the C8 counterexample: one categorical variable
holding an empty-string level, with no configured reference level. -/
def dsE : DataSource :=
  { names := ["x"], get := fun n => if n == "x" then .vstr ["", "a"] else .vnil }

/-- The data source of the C4 and C10 witnesses: three numeric columns. -/
def dsW4 : DataSource :=
  { names := ["x1", "x2", "x3"]
    get := fun na =>
      if na == "x1" then .vfloat [1, 2]
      else if na == "x2" then .vfloat [3, 4]
      else if na == "x3" then .vfloat [5, 6]
      else .vnil }

/-- The compiled parser of the C10 witness, the value New returns for
the formula x1 over dsW4. -/
def fpW : Parser :=
  { Formulas := ["x1"], RawData := dsW4, refLevels := [], codes := [],
    facNames := [], funcs := [], data := ⟨[], []⟩, ErrorState := none,
    workData := [], rpn := [[tvar "x1"]], rawNames := [], names := [] }

/-- The ColSet the C10 witness parser produces. -/
def csW : ColSet := ⟨["x1"], [[1, 2]]⟩

/-- The mutated parser after the first Parse call of the C10 witness. -/
def fpW2 : Parser :=
  { fpW with data := csW, workData := [], rawNames := ["x1", "x2", "x3"] }

set_option maxRecDepth 10000

end FormulaGo

namespace FormulaGo

/-! ## Claims -/

/-- C1: the claim says evaluating "1 + 1" succeeds with a single icept
column of ones.  The code compiles the formula but evaluation fails:
the second intercept marker is recognized as already cached and pushes
nothing onto the operand stack, so the plus operator finds a single
operand and returns the error "not enough arguments".  This theorem
evaluates the code at the failing input. -/
theorem C1_one_plus_one_fails :
    (New "1 + 1" ds3 ⟨[], []⟩).isOk = true ∧
    runSingle "1 + 1" ds3 ⟨[], []⟩ = .error (.goErr "not enough arguments") :=
  ⟨by decide, by decide⟩

/-- C2 counterexample: the postfix sequence of a+b+c is a b c + +, which
is the postfix of the explicitly right-grouped a+(b+c) and differs from
the postfix a b + c + of the left-grouped (a+b)+c; so chained
equal-precedence operators do not correspond to left-associative
grouping. -/
theorem C2_counterexample :
    compileRPN "a+b+c" = .ok [tvar "a", tvar "b", tvar "c", tplus, tplus] ∧
    compileRPN "(a+b)+c" = .ok [tvar "a", tvar "b", tplus, tvar "c", tplus] ∧
    ([tvar "a", tvar "b", tvar "c", tplus, tplus] : List Token) ≠
      [tvar "a", tvar "b", tplus, tvar "c", tplus] := by decide

/-- C2 amended: the parser indeed never pops an equal-precedence
operator before pushing the new one, and the emergent grouping for
chains of one operator is right-associative: a+b+c parses exactly as
a+(b+c), a*b*c as a*(b*c), and not as (a+b)+c. -/
theorem C2_amended :
    (∀ (stack output : List Token),
      popOps tplus (tplus :: stack) output = (tplus :: stack, output)) ∧
    (∀ (stack output : List Token),
      popOps ttimes (ttimes :: stack) output = (ttimes :: stack, output)) ∧
    compileRPN "a+b+c" = compileRPN "a+(b+c)" ∧
    compileRPN "a*b*c" = compileRPN "a*(b*c)" ∧
    compileRPN "a+b+c" ≠ compileRPN "(a+b)+c" := by
  refine ⟨fun stack output => ?_, fun stack output => ?_, by decide, by decide, by decide⟩
  · simp [popOps, isOperator, tplus, precedence]
  · simp [popOps, isOperator, ttimes, precedence]

/-- C3: on the data source with x1 = [0,1,2,3,4] numeric and
x2 = [0,0,0,1,1] categorical with reference level 0, the formula
x1 + x2 + x1*x2 yields exactly the columns x1, x2[1] and x1:x2[1] with
the stated values, in that order. -/
theorem C3_concrete_scenario :
    runSingle "x1 + x2 + x1*x2" ds3 ⟨[("x2", "0")], []⟩ =
      .ok ⟨["x1", "x2[1]", "x1:x2[1]"],
           [[0, 1, 2, 3, 4], [0, 0, 0, 1, 1], [0, 0, 0, 3, 4]]⟩ := by decide

/-- C5 counterexample: a single formula x1+x1 produces an accumulated
result with two columns both named x1, because the membership map of
Extend is not updated while appending; so the accumulated result can
contain duplicate names. -/
theorem C5_counterexample :
    runSingle "x1+x1" ds3 ⟨[], []⟩ =
      .ok ⟨["x1", "x1"], [[0, 1, 2, 3, 4], [0, 1, 2, 3, 4]]⟩ ∧
    ¬ (["x1", "x1"] : List String).Nodup :=
  ⟨by decide, by decide⟩

/-- The first projection of a zip is a sublist of the left list. -/
theorem mapFstZip_sublist : ∀ (l1 : List α) (l2 : List β),
    ((l1.zip l2).map Prod.fst).Sublist l1 := by
  intro l1
  induction l1 with
  | nil => intro l2; simp
  | cons a l1 ih =>
    intro l2
    cases l2 with
    | nil => simp
    | cons b l2 =>
      simpa using (ih l2).cons₂ a

/-- Extend preserves freedom from duplicate names when the incoming set
itself has none: it appends only names absent from the accumulator. -/
theorem extend_nodup (c o : ColSet) (hc : c.Names.Nodup) (ho : o.Names.Nodup) :
    (c.Extend o).Names.Nodup := by
  have hkeep : (((o.Names.zip o.Data).filter
      (fun p => !(c.Names.contains p.1))).map Prod.fst).Sublist o.Names :=
    ((List.filter_sublist _).map Prod.fst).trans (mapFstZip_sublist _ _)
  rw [ColSet.Extend]
  refine List.Nodup.append hc (hkeep.nodup ho) ?_
  intro x hx hx2
  obtain ⟨p, hp, hpx⟩ := List.mem_map.mp hx2
  have := (List.mem_filter.mp hp).2
  rw [hpx] at this
  simp at this
  exact this hx

/-- C5 amended: extending the accumulator drops exactly the columns
whose names are already present before the call (first occurrence wins),
so the accumulated result has no duplicate names as long as every
extension itself is duplicate-free, and compiling the formulas x1, x1
together yields the column x1 exactly once; but duplicates arising
inside one extension, as in the formula x1+x1, are not suppressed. -/
theorem C5_amended :
    (∀ c o : ColSet, c.Names.Nodup → o.Names.Nodup → (c.Extend o).Names.Nodup) ∧
    runMulti ["x1", "x1"] ds3 ⟨[], []⟩ = .ok ⟨["x1"], [[0, 1, 2, 3, 4]]⟩ :=
  ⟨extend_nodup, by decide⟩

/-- C5 witness: the amended claim applied to concrete column sets with
an overlapping name. -/
theorem C5_witness :
    (ColSet.Extend ⟨["a"], [[1]]⟩ ⟨["a", "b"], [[5], [7]]⟩).Names.Nodup :=
  C5_amended.1 ⟨["a"], [[1]]⟩ ⟨["a", "b"], [[5], [7]]⟩ (by decide) (by decide)

/-- C6: compiling the malformed formula f( fails at construction with
the unbalanced parentheses error; no parser value is produced, so
evaluation is never reached. -/
theorem C6_compile_fails :
    New "f(" ds3 ⟨[], []⟩ = .error (.goErr "Unbalanced parentheses in f(") := rfl

/-- C7 counterexample: the lexer accepts f(+), collapsing the quadruple
identifier, left paren, plus, right paren into a function token with an
empty argument, although the token between the parens is not an
identifier; the claimed malformed-function rejection does not happen. -/
theorem C7_counterexample :
    lex "f(+)" = .ok [⟨.funct, "f()", "f", ""⟩] ∧
    (⟨.plus, "", "", ""⟩ : Token).symbol ≠ .vname :=
  ⟨by decide, by decide⟩

/-- C7 amended: the post-pass collapses an identifier followed by a left
paren, an arbitrary token t and a right paren into one function-call
token whose argument is the name field of t (empty for non-identifier
tokens); an identifier followed by a left paren whose offset-3 token is
absent or not a right paren is a malformed-function error. -/
theorem C7_amended :
    (∀ (nm : String) (t : Token) (rest : List Token),
      lexFuncs (tvar nm :: tlp :: t :: trp :: rest) =
        (lexFuncs rest).map
          (fun ts => ⟨.funct, nm ++ "(" ++ t.name ++ ")", nm, t.name⟩ :: ts)) ∧
    (∀ (nm : String) (t t3 : Token) (rest : List Token), t3.symbol ≠ .rightp →
      lexFuncs (tvar nm :: tlp :: t :: t3 :: rest) =
        .error (.goErr "Malformed function call")) ∧
    (∀ nm : String, lexFuncs [tvar nm, tlp] = .error (.goErr "Malformed function call")) ∧
    (∀ (nm : String) (t : Token),
      lexFuncs [tvar nm, tlp, t] = .error (.goErr "Malformed function call")) := by
  refine ⟨fun nm t rest => ?_, fun nm t t3 rest h => ?_, fun nm => ?_, fun nm t => ?_⟩
  · simp [lexFuncs, tvar, tlp, trp]
  · simp [lexFuncs, tvar, tlp, h]
  · simp [lexFuncs, tvar, tlp]
  · simp [lexFuncs, tvar, tlp]

/-- C7 witness: the rejection rule of the amended claim at a concrete
input whose offset-3 token is a plus. -/
theorem C7_witness :
    lexFuncs [tvar "f", tlp, tplus, tplus] = .error (.goErr "Malformed function call") :=
  C7_amended.2.1 "f" tplus tplus [] (by decide)

/-- C9 counterexample: applying the registered function square to the
categorical variable x2 does not surface a type-mismatch error value to
the caller; the code panics (crashes) with the message below instead of
returning an error result. -/
theorem C9_counterexample :
    runSingle "square(x2)" ds3 ⟨[], [("square", sqFn)]⟩ =
      .error (.goPanic "funtions can only be applied to numeric data") := by decide

/-- C9 amended: whenever a function token names a registered function
and its argument variable holds string data, evaluation of the formula
panics with a type-mismatch message before any result is produced. -/
theorem C9_amended :
    ∀ (env : Env) (data : ColSet) (wd : WorkData) (tok : Token)
      (rest : List Token) (f : Fn) (s : List String),
      tok.symbol = .funct → List.lookup tok.funcn env.funcs = some f →
      env.RawData.get tok.arg = .vstr s →
      doFormula env data wd (tok :: rest) =
        .error (.goPanic "funtions can only be applied to numeric data") := by
  intro env data wd tok rest f s h1 h2 h3
  simp [doFormula, runFuncs, h1, h2, h3, Bind.bind, Except.bind]

/-- C9 witness: the amended claim applied to the function token of
square(x2) over the concrete data source. -/
theorem C9_witness :
    doFormula ⟨ds3, [], [], [], [("square", sqFn)]⟩ ⟨[], []⟩ []
        [⟨.funct, "square(x2)", "square", "x2"⟩] =
      .error (.goPanic "funtions can only be applied to numeric data") :=
  C9_amended ⟨ds3, [], [], [], [("square", sqFn)]⟩ ⟨[], []⟩ []
    ⟨.funct, "square(x2)", "square", "x2"⟩ [] sqFn ["0", "0", "0", "1", "1"]
    rfl rfl rfl

end FormulaGo

namespace FormulaGo

theorem specFirstSeen_nil (ref : String) : specFirstSeen ref [] = [] := by
  rw [specFirstSeen]

theorem specFirstSeen_cons (ref x : String) (rest : List String) :
    specFirstSeen ref (x :: rest) =
      if x = ref then specFirstSeen ref rest
      else x :: specFirstSeen ref (rest.filter (fun y => y ≠ x)) := by
  rw [specFirstSeen]

theorem lookup_isSome_iff (x : String) :
    ∀ (codes : List (String × Nat)),
      (List.lookup x codes).isSome = true ↔ x ∈ codes.map Prod.fst := by
  intro codes
  induction codes with
  | nil => simp
  | cons p rest ih =>
    cases h : (x == p.1) with
    | true =>
      simp only [List.lookup, h, Option.isSome_some, true_iff, List.map_cons,
        List.mem_cons]
      exact Or.inl (by simpa using h)
    | false =>
      simp only [List.lookup, h, List.map_cons, List.mem_cons]
      rw [ih]
      have hne : ¬ x = p.1 := by simpa using h
      tauto

theorem setCodesVar_keys (ref na : String) :
    ∀ (s : List String) (codes : List (String × Nat)) (fns : List String),
      (setCodesVar ref na s codes fns).1.map Prod.fst =
        codes.map Prod.fst ++
          specFirstSeen ref (s.filter (fun y => y ∉ codes.map Prod.fst)) := by
  intro s
  induction s with
  | nil => intro codes fns; simp [setCodesVar, specFirstSeen_nil]
  | cons x rest ih =>
    intro codes fns
    rw [List.filter_cons]
    by_cases href : x = ref
    · subst href
      rw [setCodesVar, if_pos (beq_self_eq_true x)]
      rw [ih codes fns]
      congr 1
      by_cases hk : x ∈ codes.map Prod.fst
      · rw [if_neg (by simp [hk])]
      · rw [if_pos (by simp [hk]), specFirstSeen_cons, if_pos rfl]
    · rw [setCodesVar, if_neg (by simp [href])]
      by_cases hk : x ∈ codes.map Prod.fst
      · rw [if_pos ((lookup_isSome_iff x codes).mpr hk)]
        rw [ih codes fns]
        congr 1
        rw [if_neg (by simp [hk])]
      · rw [if_neg (by rw [lookup_isSome_iff]; exact hk)]
        rw [ih]
        simp only [List.map_append, List.map_cons, List.map_nil]
        rw [if_pos (by simp [hk]), specFirstSeen_cons, if_neg href, List.append_assoc]
        congr 1
        simp only [List.cons_append, List.nil_append]
        congr 1
        rw [List.filter_filter]
        congr 1
        apply List.filter_congr
        intro y hy
        by_cases h1 : y ∈ codes.map Prod.fst <;> by_cases h2 : y = x <;>
          simp [h1, h2, List.mem_append]

theorem setCodesVar_codes (ref na : String) :
    ∀ (s : List String) (codes : List (String × Nat)) (fns : List String),
      codes.map Prod.snd = List.range codes.length →
      (setCodesVar ref na s codes fns).1.map Prod.snd =
        List.range (setCodesVar ref na s codes fns).1.length := by
  intro s
  induction s with
  | nil => intro codes fns h; simpa [setCodesVar] using h
  | cons x rest ih =>
    intro codes fns h
    rw [setCodesVar]
    by_cases href : (x == ref) = true
    · rw [if_pos href]; exact ih codes fns h
    · rw [if_neg href]
      by_cases hk : (codes.lookup x).isSome = true
      · rw [if_pos hk]; exact ih codes fns h
      · rw [if_neg hk]
        refine ih _ _ ?_
        simp [h, List.range_succ]

theorem setCodesVar_fns (ref na : String) :
    ∀ (s : List String) (codes : List (String × Nat)) (fns : List String),
      fns = codes.map (fun p => na ++ "[" ++ p.1 ++ "]") →
      (setCodesVar ref na s codes fns).2 =
        (setCodesVar ref na s codes fns).1.map (fun p => na ++ "[" ++ p.1 ++ "]") := by
  intro s
  induction s with
  | nil => intro codes fns h; simpa [setCodesVar] using h
  | cons x rest ih =>
    intro codes fns h
    rw [setCodesVar]
    by_cases href : (x == ref) = true
    · rw [if_pos href]; exact ih codes fns h
    · rw [if_neg href]
      by_cases hk : (codes.lookup x).isSome = true
      · rw [if_pos hk]; exact ih codes fns h
      · rw [if_neg hk]
        refine ih _ _ ?_
        simp [h]

theorem setCodesVar_ref_not_mem (ref na : String) :
    ∀ (s : List String) (codes : List (String × Nat)) (fns : List String),
      ref ∉ codes.map Prod.fst →
      ref ∉ (setCodesVar ref na s codes fns).1.map Prod.fst := by
  intro s
  induction s with
  | nil => intro codes fns h; simpa [setCodesVar] using h
  | cons x rest ih =>
    intro codes fns h
    rw [setCodesVar]
    by_cases href : (x == ref) = true
    · rw [if_pos href]; exact ih codes fns h
    · rw [if_neg href]
      by_cases hk : (codes.lookup x).isSome = true
      · rw [if_pos hk]; exact ih codes fns h
      · rw [if_neg hk]
        refine ih _ _ ?_
        simp only [List.map_append, List.map_cons, List.map_nil, List.mem_append]
        rintro (hc | hc)
        · exact h hc
        · simp at hc
          exact absurd (by simp [hc]) href

theorem setCodesVar_all_ref (ref na : String) :
    ∀ (s : List String) (codes : List (String × Nat)) (fns : List String),
      (∀ x ∈ s, x = ref) →
      setCodesVar ref na s codes fns = (codes, fns) := by
  intro s
  induction s with
  | nil => intro codes fns _; rfl
  | cons x rest ih =>
    intro codes fns h
    rw [setCodesVar, if_pos (by simp [h x (by simp)])]
    exact ih codes fns (fun y hy => h y (by simp [hy]))

theorem codeStringsLoop_all_ref (codes : List (String × Nat)) (ref : String) :
    ∀ (s : List String) (i : Nat) (dat : List (List Int)),
      (∀ x ∈ s, x = ref) →
      codeStringsLoop codes ref s i dat = .ok dat := by
  intro s
  induction s with
  | nil => intro i dat _; rfl
  | cons x rest ih =>
    intro i dat h
    rw [codeStringsLoop, if_pos (by simp [h x (by simp)])]
    exact ih _ _ (fun y hy => h y (by simp [hy]))

theorem setCodesLoop_skip (ds : DataSource) (rl : List (String × String)) (na : String) :
    ∀ (names : List String) (codes : List (String × List (String × Nat)))
      (fns : List (String × List String)),
      na ∉ names → (∀ n ∈ names, ds.get n ≠ .vnil) →
      (List.lookup na (setCodesLoop ds rl names codes fns).1 = List.lookup na codes ∧
       List.lookup na (setCodesLoop ds rl names codes fns).2 = List.lookup na fns) := by
  intro names
  induction names with
  | nil => intro codes fns _ _; exact ⟨rfl, rfl⟩
  | cons n rest ih =>
    intro codes fns hnm hnn
    have hne : (na == n) = false := by
      simp only [beq_eq_false_iff_ne, ne_eq]
      intro h; exact hnm (by simp [h])
    rw [setCodesLoop]
    cases hget : ds.get n with
    | vnil => exact absurd hget (hnn n (by simp))
    | vstr v =>
      have := ih ((n, (setCodesVar ((rl.lookup n).getD "") n v
          ((codes.lookup n).getD []) ((fns.lookup n).getD [])).1) :: codes)
        ((n, (setCodesVar ((rl.lookup n).getD "") n v
          ((codes.lookup n).getD []) ((fns.lookup n).getD [])).2) :: fns)
        (fun h => hnm (by simp [h])) (fun m hm => hnn m (by simp [hm]))
      refine ⟨?_, ?_⟩
      · rw [this.1]; simp [List.lookup, hne]
      · rw [this.2]; simp [List.lookup, hne]
    | vfloat v => exact ih codes fns (fun h => hnm (by simp [h])) (fun m hm => hnn m (by simp [hm]))
    | vother => exact ih codes fns (fun h => hnm (by simp [h])) (fun m hm => hnn m (by simp [hm]))

theorem setCodesLoop_found (ds : DataSource) (rl : List (String × String)) (na : String)
    (s : List String) :
    ∀ (names : List String) (codes : List (String × List (String × Nat)))
      (fns : List (String × List String)),
      names.Nodup → (∀ n ∈ names, ds.get n ≠ .vnil) → na ∈ names →
      ds.get na = .vstr s →
      List.lookup na codes = none → List.lookup na fns = none →
      (List.lookup na (setCodesLoop ds rl names codes fns).1 =
        some (setCodesVar ((rl.lookup na).getD "") na s [] []).1 ∧
       List.lookup na (setCodesLoop ds rl names codes fns).2 =
        some (setCodesVar ((rl.lookup na).getD "") na s [] []).2) := by
  intro names
  induction names with
  | nil => intro codes fns _ _ hmem; simp at hmem
  | cons n rest ih =>
    intro codes fns hnd hnn hmem hget hc hf
    rw [setCodesLoop]
    by_cases heq : na = n
    · subst heq
      rw [hget]
      have hskip := setCodesLoop_skip ds rl na rest
        ((na, (setCodesVar ((rl.lookup na).getD "") na s
          ((codes.lookup na).getD []) ((fns.lookup na).getD [])).1) :: codes)
        ((na, (setCodesVar ((rl.lookup na).getD "") na s
          ((codes.lookup na).getD []) ((fns.lookup na).getD [])).2) :: fns)
        (by simpa using (List.nodup_cons.mp hnd).1)
        (fun m hm => hnn m (by simp [hm]))
      refine ⟨?_, ?_⟩
      · rw [hskip.1]; simp [List.lookup, hc, hf]
      · rw [hskip.2]; simp [List.lookup, hc, hf]
    · have hmem2 : na ∈ rest := by
        rcases List.mem_cons.mp hmem with h | h
        · exact absurd h heq
        · exact h
      have hnd2 := (List.nodup_cons.mp hnd).2
      have hnn2 : ∀ m ∈ rest, ds.get m ≠ .vnil := fun m hm => hnn m (by simp [hm])
      cases hgn : ds.get n with
      | vnil => exact absurd hgn (hnn n (by simp))
      | vstr v =>
        refine ih _ _ hnd2 hnn2 hmem2 hget ?_ ?_
        · simp [List.lookup, show (na == n) = false by simpa using heq, hc]
        · simp [List.lookup, show (na == n) = false by simpa using heq, hf]
      | vfloat v => exact ih codes fns hnd2 hnn2 hmem2 hget hc hf
      | vother => exact ih codes fns hnd2 hnn2 hmem2 hget hc hf

/-- C8 amended: for a string-valued variable of a well-formed data
source (every listed variable present, names listed once), the code
table entry maps the distinct observed values other than the EFFECTIVE
reference level - the configured one, or the empty string when none is
configured, by the Go map zero value - to the consecutive codes 0, 1,
... in first-seen order, with display names variable[value]; the
effective reference level receives no code, and a variable with zero
non-reference levels yields a ColSet with zero indicator columns. -/
theorem C8_amended :
    ∀ (ds : DataSource) (refLevels : List (String × String)) (na : String)
      (s : List String) (ref : String),
      ref = (refLevels.lookup na).getD "" →
      (∀ n ∈ ds.names, ds.get n ≠ .vnil) →
      ds.names.Nodup →
      na ∈ ds.names →
      ds.get na = .vstr s →
      List.lookup na (setCodes ds refLevels).1 = some (setCodesVar ref na s [] []).1 ∧
      List.lookup na (setCodes ds refLevels).2 = some (setCodesVar ref na s [] []).2 ∧
      (setCodesVar ref na s [] []).1.map Prod.fst = specFirstSeen ref s ∧
      (setCodesVar ref na s [] []).1.map Prod.snd =
        List.range (setCodesVar ref na s [] []).1.length ∧
      (setCodesVar ref na s [] []).2 =
        (setCodesVar ref na s [] []).1.map (fun p => na ++ "[" ++ p.1 ++ "]") ∧
      ref ∉ (setCodesVar ref na s [] []).1.map Prod.fst ∧
      ((∀ x ∈ s, x = ref) →
        codeStrings (setCodesVar ref na s [] []).1 (setCodesVar ref na s [] []).2 ref s =
          .ok ⟨[], []⟩) := by
  intro ds refLevels na s ref href hnn hnd hmem hget
  subst href
  have hfound := setCodesLoop_found ds refLevels na s ds.names [] [] hnd hnn hmem hget rfl rfl
  refine ⟨hfound.1, hfound.2, ?_, ?_, ?_, ?_, ?_⟩
  · rw [setCodesVar_keys]
    simp
  · exact setCodesVar_codes _ na s [] [] (by simp)
  · exact setCodesVar_fns _ na s [] [] (by simp)
  · exact setCodesVar_ref_not_mem _ na s [] [] (by simp)
  · intro hall
    rw [setCodesVar_all_ref _ na s [] [] hall]
    rw [codeStrings]
    simp only [List.map_nil]
    rw [codeStringsLoop_all_ref [] _ s 0 [] hall]
    rfl

/-- C8 witness: the amended claim applied to a variable whose values
all equal its configured reference level, exercising the zero-column
clause. -/
theorem C8_witness :
    List.lookup "x" (setCodes dsW8 [("x", "b")]).1 = some [] ∧
    codeStrings [] [] "b" ["b", "b"] = .ok ⟨[], []⟩ := by
  have h := C8_amended dsW8 [("x", "b")] "x" ["b", "b"] "b" rfl
    (by decide) (by decide) (by decide) rfl
  exact ⟨h.1, h.2.2.2.2.2.2 (by decide)⟩

/-- C8 counterexample: with NO reference level configured for the
variable x, the claim says no observed value is excluded, so both the
empty string and a should receive codes; the code excludes the empty
string (the Go zero value of the missing map entry acts as reference)
and produces a single code and a single indicator column. -/
theorem C8_counterexample :
    setCodes dsE [] = ([("x", [("a", 0)])], [("x", ["x[a]"])]) ∧
    runSingle "x" dsE ⟨[], []⟩ = .ok ⟨["x[a]"], [[0, 1]]⟩ :=
  ⟨by decide, by decide⟩

/-- C10: evaluation is repeatable.  A successful Parse returns the
accumulated ColSet together with the mutated parser; running Parse again
on that parser returns the same ColSet and leaves the parser unchanged,
because Parse resets the accumulator, gives every formula a fresh
working cache, and reads only fields it does not modify. -/
theorem C10_parse_repeatable :
    ∀ (fp : Parser) (c : ColSet) (fp2 : Parser),
      fp.Parse = .ok (c, fp2) → fp2.Parse = .ok (c, fp2) := by
  intro fp c fp2 h
  rw [Parser.Parse] at h ⊢
  dsimp only [Parser.env] at h ⊢
  cases hp : parseFormulas ⟨fp.RawData, fp.refLevels, fp.codes, fp.facNames, fp.funcs⟩
      fp.rpn ⟨[], []⟩ with
  | error e =>
    rw [hp] at h
    simp [Bind.bind, Except.bind] at h
  | ok c2 =>
    rw [hp] at h
    simp only [Bind.bind, Except.bind, Except.ok.injEq, Prod.mk.injEq] at h
    obtain ⟨hc, hfp⟩ := h
    subst hc
    subst hfp
    dsimp only
    rw [hp]
    simp [Bind.bind, Except.bind]

/-- C10 witness: the repeatability theorem applied to the compiled
parser for the formula x1 over a concrete data source. -/
theorem C10_witness : fpW2.Parse = .ok (csW, fpW2) :=
  C10_parse_repeatable fpW csW fpW2 (by rfl)


theorem isOperator_tvar (s : String) : isOperator (tvar s) = false := rfl
theorem tvar_symbol (s : String) : (tvar s).symbol = .vname := rfl
theorem tvar_name (s : String) : (tvar s).name = s := rfl

theorem runSingle_eq (f : String) (rpn : List Token) (ds : DataSource)
    (rl : List (String × String)) (fns : List (String × Fn))
    (h : initFormulas [f] = .ok [rpn]) :
    runSingle f ds ⟨rl, fns⟩ =
      doFormula ⟨ds, rl, (setCodes ds rl).1, (setCodes ds rl).2, fns⟩ ⟨[], []⟩ [] rpn := by
  simp only [runSingle, New, NewMulti, h, Bind.bind, Except.bind, Parser.Parse,
    Parser.env, parseFormulas]
  cases hd : doFormula ⟨ds, rl, (setCodes ds rl).1, (setCodes ds rl).2, fns⟩
      ⟨[], []⟩ [] rpn <;> simp [Bind.bind, Except.bind, hd]

theorem loop_vname_new {env : Env} {rest : List Token} {ix : Nat} {data : ColSet}
    {wd : WorkData} {stack : List String} {na : String} {cs : ColSet}
    (hnc : List.lookup na wd = none) (hv : convVal env na = .ok cs) :
    doFormulaLoop env (tvar na :: rest) ix data wd stack =
      doFormulaLoop env rest (ix + 1) data ((na, cs) :: wd) (na :: stack) := by
  rw [doFormulaLoop.eq_def]
  dsimp only
  simp only [isOperator_tvar, Bool.false_eq_true, if_false, tvar_symbol, tvar_name]
  rw [checkConv, convertColumn, hnc]
  simp [hv, Except.map, checkConv]

theorem loop_vname_cached {env : Env} {rest : List Token} {ix : Nat} {data : ColSet}
    {wd : WorkData} {stack : List String} {na : String} {cs : ColSet}
    (hc : List.lookup na wd = some cs) :
    doFormulaLoop env (tvar na :: rest) ix data wd stack =
      doFormulaLoop env rest (ix + 1) data wd (na :: stack) := by
  rw [doFormulaLoop.eq_def]
  dsimp only
  simp only [isOperator_tvar, Bool.false_eq_true, if_false, tvar_symbol, tvar_name]
  rw [checkConv, convertColumn]
  simp [hc, checkConv]

theorem loop_vname_goerr {env : Env} {rest : List Token} {ix : Nat} {data : ColSet}
    {wd : WorkData} {stack : List String} {na m : String}
    (hnc : List.lookup na wd = none) (hv : convVal env na = .error (.goErr m)) :
    doFormulaLoop env (tvar na :: rest) ix data wd stack =
      doFormulaLoop env rest (ix + 1) data wd (na :: stack) := by
  rw [doFormulaLoop.eq_def]
  dsimp only
  simp only [isOperator_tvar, Bool.false_eq_true, if_false, tvar_symbol, tvar_name]
  rw [checkConv, convertColumn, hnc]
  simp [hv, Except.map]

theorem loop_vname_gopanic {env : Env} {rest : List Token} {ix : Nat} {data : ColSet}
    {wd : WorkData} {stack : List String} {na m : String}
    (hnc : List.lookup na wd = none) (hv : convVal env na = .error (.goPanic m)) :
    doFormulaLoop env (tvar na :: rest) ix data wd stack = .error (.goPanic m) := by
  rw [doFormulaLoop.eq_def]
  dsimp only
  simp only [isOperator_tvar, Bool.false_eq_true, if_false, tvar_symbol, tvar_name]
  rw [checkConv, convertColumn, hnc]
  simp [hv, Except.map]

theorem loop_plus_ok {env : Env} {rest : List Token} {ix : Nat} {data : ColSet}
    {wd : WorkData} {stack : List String} {arg1 arg2 : String} {d1 d2 : ColSet}
    (h1 : List.lookup arg1 wd = some d1) (h2 : List.lookup arg2 wd = some d2) :
    doFormulaLoop env (tplus :: rest) ix data wd (arg2 :: arg1 :: stack) =
      doFormulaLoop env rest (ix + 1)
        (if rest.isEmpty then data.Extend (doPlusCS d1 d2) else data)
        (("tmp" ++ toString ix, doPlusCS d1 d2) :: wd)
        (("tmp" ++ toString ix) :: stack) := by
  rw [doFormulaLoop.eq_def]
  dsimp only
  simp only [show isOperator tplus = true from rfl, if_true]
  rw [checkConv, convertColumn]
  simp only [h1, Option.isSome_some, if_true]
  rw [checkConv, convertColumn]
  simp only [h2, Option.isSome_some, if_true]
  rw [checkConv]
  simp only [show tplus.symbol = TokType.plus from rfl]
  rw [doPlus]
  simp [h1, h2, Bind.bind, Except.bind]

theorem loop_times_ok {env : Env} {rest : List Token} {ix : Nat} {data : ColSet}
    {wd : WorkData} {stack : List String} {arg1 arg2 : String} {d1 d2 : ColSet}
    (h1 : List.lookup arg1 wd = some d1) (h2 : List.lookup arg2 wd = some d2) :
    doFormulaLoop env (ttimes :: rest) ix data wd (arg2 :: arg1 :: stack) =
      doFormulaLoop env rest (ix + 1)
        (if rest.isEmpty then data.Extend (doTimesCS d1 d2) else data)
        (("tmp" ++ toString ix, doTimesCS d1 d2) :: wd)
        (("tmp" ++ toString ix) :: stack) := by
  rw [doFormulaLoop.eq_def]
  dsimp only
  simp only [show isOperator ttimes = true from rfl, if_true]
  rw [checkConv, convertColumn]
  simp only [h1, Option.isSome_some, if_true]
  rw [checkConv, convertColumn]
  simp only [h2, Option.isSome_some, if_true]
  rw [checkConv]
  simp only [show ttimes.symbol = TokType.times from rfl]
  rw [doTimes]
  simp [h1, h2, Bind.bind, Except.bind]

theorem loop_op_fail1 {env : Env} {tok : Token} {rest : List Token} {ix : Nat}
    {data : ColSet} {wd : WorkData} {stack : List String} {arg1 arg2 m : String}
    (htok : isOperator tok = true)
    (h1 : List.lookup arg1 wd = none) (hv : convVal env arg1 = .error (.goErr m)) :
    doFormulaLoop env (tok :: rest) ix data wd (arg2 :: arg1 :: stack) =
      .error (.goPanic "nil pointer dereference") := by
  rw [doFormulaLoop.eq_def]
  dsimp only
  simp only [htok, if_true]
  rw [checkConv, convertColumn, h1]
  simp only [hv, Except.map]
  have hop : tok.symbol = TokType.plus ∨ tok.symbol = TokType.times := by
    rw [isOperator] at htok
    rcases Bool.or_eq_true_iff.mp htok with h | h
    · exact Or.inr (by simpa using h)
    · exact Or.inl (by simpa using h)
  rcases hop with h | h <;>
    simp [h, doPlus, doTimes, h1, Bind.bind, Except.bind]

theorem loop_op_fail2 {env : Env} {tok : Token} {rest : List Token} {ix : Nat}
    {data : ColSet} {wd : WorkData} {stack : List String} {arg1 arg2 m : String}
    {d1 : ColSet}
    (htok : isOperator tok = true)
    (h1 : List.lookup arg1 wd = some d1) (h2 : List.lookup arg2 wd = none)
    (hv : convVal env arg2 = .error (.goErr m)) :
    doFormulaLoop env (tok :: rest) ix data wd (arg2 :: arg1 :: stack) =
      .error (.goPanic "nil pointer dereference") := by
  rw [doFormulaLoop.eq_def]
  dsimp only
  simp only [htok, if_true]
  rw [checkConv, convertColumn]
  simp only [h1, Option.isSome_some, if_true]
  rw [checkConv, convertColumn, h2]
  simp only [hv, Except.map]
  have hop : tok.symbol = TokType.plus ∨ tok.symbol = TokType.times := by
    rw [isOperator] at htok
    rcases Bool.or_eq_true_iff.mp htok with h | h
    · exact Or.inr (by simpa using h)
    · exact Or.inl (by simpa using h)
  rcases hop with h | h <;>
    simp [h, doPlus, doTimes, h1, h2, Bind.bind, Except.bind]

theorem loop_nil (env : Env) (ix : Nat) (data : ColSet) (wd : WorkData)
    (stack : List String) :
    doFormulaLoop env [] ix data wd stack = .ok (data, wd, stack) := rfl

theorem doFormulaA_unfold (env : Env) (data : ColSet) :
    doFormula env data [] [tvar "x1", tvar "x2", tplus, tvar "x3", ttimes] =
      Except.bind
        (doFormulaLoop env [tvar "x1", tvar "x2", tplus, tvar "x3", ttimes] 0 data [] [])
        (fun r => if r.2.2.length != 1 then .error (.goErr "invalid formula")
                  else .ok r.1) := rfl

theorem doFormulaB_unfold (env : Env) (data : ColSet) :
    doFormula env data []
        [tvar "x1", tvar "x3", ttimes, tvar "x2", tvar "x3", ttimes, tplus] =
      Except.bind
        (doFormulaLoop env
          [tvar "x1", tvar "x3", ttimes, tvar "x2", tvar "x3", ttimes, tplus]
          0 data [] [])
        (fun r => if r.2.2.length != 1 then .error (.goErr "invalid formula")
                  else .ok r.1) := rfl

theorem evalA (env : Env) (c : ColSet)
    (h : doFormula env ⟨[], []⟩ [] [tvar "x1", tvar "x2", tplus, tvar "x3", ttimes] =
      .ok c) :
    ∃ cs1 cs2 cs3, convVal env "x1" = .ok cs1 ∧ convVal env "x2" = .ok cs2 ∧
      convVal env "x3" = .ok cs3 ∧
      c = ColSet.Extend ⟨[], []⟩ (doTimesCS (doPlusCS cs1 cs2) cs3) := by
  rw [doFormulaA_unfold] at h
  rcases hv1 : convVal env "x1" with e1 | cs1
  · exfalso
    rcases e1 with m1 | m1
    · rw [loop_vname_goerr (by rfl) hv1] at h
      rcases hv2 : convVal env "x2" with e2 | cs2
      · rcases e2 with m2 | m2
        · rw [loop_vname_goerr (by rfl) hv2, loop_op_fail1 (by rfl) (by rfl) hv1] at h
          simp [Except.bind] at h
        · rw [loop_vname_gopanic (by rfl) hv2] at h
          simp [Except.bind] at h
      · rw [loop_vname_new (by rfl) hv2, loop_op_fail1 (by rfl) (by rfl) hv1] at h
        simp [Except.bind] at h
    · rw [loop_vname_gopanic (by rfl) hv1] at h
      simp [Except.bind] at h
  · rw [loop_vname_new (by rfl) hv1] at h
    rcases hv2 : convVal env "x2" with e2 | cs2
    · exfalso
      rcases e2 with m2 | m2
      · rw [loop_vname_goerr (by rfl) hv2, loop_op_fail2 (by rfl) (by rfl) (by rfl) hv2] at h
        simp [Except.bind] at h
      · rw [loop_vname_gopanic (by rfl) hv2] at h
        simp [Except.bind] at h
    · rw [loop_vname_new (by rfl) hv2, loop_plus_ok (by rfl) (by rfl)] at h
      rcases hv3 : convVal env "x3" with e3 | cs3
      · exfalso
        rcases e3 with m3 | m3
        · rw [loop_vname_goerr (by rfl) hv3, loop_op_fail2 (by rfl) (by rfl) (by rfl) hv3] at h
          simp [Except.bind] at h
        · rw [loop_vname_gopanic (by rfl) hv3] at h
          simp [Except.bind] at h
      · rw [loop_vname_new (by rfl) hv3, loop_times_ok (by rfl) (by rfl), loop_nil] at h
        simp [Except.bind] at h
        exact ⟨cs1, cs2, cs3, rfl, rfl, rfl, h.symm⟩

theorem evalB (env : Env) (c : ColSet)
    (h : doFormula env ⟨[], []⟩ []
        [tvar "x1", tvar "x3", ttimes, tvar "x2", tvar "x3", ttimes, tplus] = .ok c) :
    ∃ cs1 cs2 cs3, convVal env "x1" = .ok cs1 ∧ convVal env "x2" = .ok cs2 ∧
      convVal env "x3" = .ok cs3 ∧
      c = ColSet.Extend ⟨[], []⟩
        (doPlusCS (doTimesCS cs1 cs3) (doTimesCS cs2 cs3)) := by
  rw [doFormulaB_unfold] at h
  rcases hv1 : convVal env "x1" with e1 | cs1
  · exfalso
    rcases e1 with m1 | m1
    · rw [loop_vname_goerr (by rfl) hv1] at h
      rcases hv3 : convVal env "x3" with e3 | cs3
      · rcases e3 with m3 | m3
        · rw [loop_vname_goerr (by rfl) hv3, loop_op_fail1 (by rfl) (by rfl) hv1] at h
          simp [Except.bind] at h
        · rw [loop_vname_gopanic (by rfl) hv3] at h
          simp [Except.bind] at h
      · rw [loop_vname_new (by rfl) hv3, loop_op_fail1 (by rfl) (by rfl) hv1] at h
        simp [Except.bind] at h
    · rw [loop_vname_gopanic (by rfl) hv1] at h
      simp [Except.bind] at h
  · rw [loop_vname_new (by rfl) hv1] at h
    rcases hv3 : convVal env "x3" with e3 | cs3
    · exfalso
      rcases e3 with m3 | m3
      · rw [loop_vname_goerr (by rfl) hv3, loop_op_fail2 (by rfl) (by rfl) (by rfl) hv3] at h
        simp [Except.bind] at h
      · rw [loop_vname_gopanic (by rfl) hv3] at h
        simp [Except.bind] at h
    · rw [loop_vname_new (by rfl) hv3, loop_times_ok (by rfl) (by rfl)] at h
      rcases hv2 : convVal env "x2" with e2 | cs2
      · exfalso
        rcases e2 with m2 | m2
        · rw [loop_vname_goerr (by rfl) hv2, loop_vname_cached (by rfl),
            loop_op_fail1 (by rfl) (by rfl) hv2] at h
          simp [Except.bind] at h
        · rw [loop_vname_gopanic (by rfl) hv2] at h
          simp [Except.bind] at h
      · rw [loop_vname_new (by rfl) hv2, loop_vname_cached (by rfl), loop_times_ok (by rfl) (by rfl),
          loop_plus_ok (by rfl) (by rfl), loop_nil] at h
        simp [Except.bind] at h
        exact ⟨cs1, cs2, cs3, rfl, rfl, rfl, h.symm⟩

theorem crossPairs_append :
    ∀ (l1 l2 m : List (String × List Int)),
      crossPairs (l1 ++ l2) m = crossPairs l1 m ++ crossPairs l2 m := by
  intro l1
  induction l1 with
  | nil => intro l2 m; simp [crossPairs]
  | cons p rest ih =>
    intro l2 m
    simp [crossPairs, ih, List.append_assoc]

theorem doTimesCS_distrib (a b c : ColSet) (h : a.Names.length = a.Data.length) :
    doTimesCS (doPlusCS a b) c = doPlusCS (doTimesCS a c) (doTimesCS b c) := by
  simp only [doTimesCS, doPlusCS]
  rw [List.zip_append h, crossPairs_append]
  simp

theorem setCodesVar_len (ref na : String) :
    ∀ (s : List String) (codes : List (String × Nat)) (fns : List String),
      codes.length = fns.length →
      (setCodesVar ref na s codes fns).1.length = (setCodesVar ref na s codes fns).2.length := by
  intro s
  induction s with
  | nil => intro codes fns h; simpa [setCodesVar] using h
  | cons x rest ih =>
    intro codes fns h
    rw [setCodesVar]
    by_cases href : (x == ref) = true
    · rw [if_pos href]; exact ih codes fns h
    · rw [if_neg href]
      by_cases hk : (codes.lookup x).isSome = true
      · rw [if_pos hk]; exact ih codes fns h
      · rw [if_neg hk]
        refine ih _ _ ?_
        simp [h]

theorem setCodesLoop_len (ds : DataSource) (rl : List (String × String)) :
    ∀ (names : List String) (codes : List (String × List (String × Nat)))
      (fns : List (String × List String)),
      (∀ na, ((List.lookup na codes).getD []).length =
        ((List.lookup na fns).getD []).length) →
      ∀ na, ((List.lookup na (setCodesLoop ds rl names codes fns).1).getD []).length =
        ((List.lookup na (setCodesLoop ds rl names codes fns).2).getD []).length := by
  intro names
  induction names with
  | nil => intro codes fns h; exact h
  | cons n rest ih =>
    intro codes fns h
    rw [setCodesLoop]
    cases hget : ds.get n with
    | vnil => exact h
    | vstr v =>
      refine ih _ _ ?_
      intro na
      by_cases heq : (na == n) = true
      · simp only [List.lookup, heq, Option.getD_some]
        exact setCodesVar_len _ n v _ _ (h n)
      · simp only [List.lookup, heq]
        exact h na
    | vfloat v => exact ih codes fns h
    | vother => exact ih codes fns h

theorem codeStringsLoop_len (codes : List (String × Nat)) (ref : String) :
    ∀ (s : List String) (i : Nat) (dat dat2 : List (List Int)),
      codeStringsLoop codes ref s i dat = .ok dat2 → dat2.length = dat.length := by
  intro s
  induction s with
  | nil =>
    intro i dat dat2 h
    rw [codeStringsLoop] at h
    simp only [Except.ok.injEq] at h
    rw [h]
  | cons x rest ih =>
    intro i dat dat2 h
    rw [codeStringsLoop] at h
    by_cases hx : (x == ref) = true
    · rw [if_pos hx] at h
      exact ih _ _ _ h
    · rw [if_neg hx] at h
      rw [setEntry] at h
      by_cases hc : (codes.lookup x).getD 0 < dat.length
      · rw [if_pos hc] at h
        simp only [Bind.bind, Except.bind] at h
        have := ih _ _ _ h
        simpa using this
      · rw [if_neg hc] at h
        simp [Bind.bind, Except.bind] at h

theorem convVal_wf (env : Env)
    (hok : ∀ na, ((List.lookup na env.codes).getD []).length =
      ((List.lookup na env.facNames).getD []).length)
    (na : String) (cs : ColSet) (h : convVal env na = .ok cs) :
    cs.Names.length = cs.Data.length := by
  rw [convVal] at h
  cases hg : env.RawData.get na with
  | vnil => rw [hg] at h; simp at h
  | vother => rw [hg] at h; simp at h
  | vfloat s =>
    rw [hg] at h
    simp only [Except.ok.injEq] at h
    rw [← h]
    rfl
  | vstr s =>
    rw [hg] at h
    unfold codeStrings at h
    simp only [Bind.bind, Except.bind] at h
    cases hl : codeStringsLoop ((List.lookup na env.codes).getD [])
        ((List.lookup na env.refLevels).getD "") s 0
        (((List.lookup na env.codes).getD []).map
          (fun _ => List.replicate s.length (0 : Int))) with
    | error e => rw [hl] at h; simp at h
    | ok dat2 =>
      rw [hl] at h
      simp only [Except.ok.injEq] at h
      rw [← h]
      have hlen := codeStringsLoop_len _ _ s 0 _ _ hl
      simp only [List.length_map] at hlen
      simpa [hlen] using (hok na).symm

/-- C4: for every data source, reference-level configuration and
function registry on which both formulas evaluate successfully,
evaluating (x1+x2)*x3 yields exactly the same ColSet - same names in
the same order, same values - as evaluating x1*x3+x2*x3: interaction
distributes over union. -/
theorem C4_interaction_distributes :
    ∀ (ds : DataSource) (rl : List (String × String)) (fns : List (String × Fn))
      (c1 c2 : ColSet),
      runSingle "(x1+x2)*x3" ds ⟨rl, fns⟩ = .ok c1 →
      runSingle "x1*x3+x2*x3" ds ⟨rl, fns⟩ = .ok c2 → c1 = c2 := by
  intro ds rl fns c1 c2 h1 h2
  rw [runSingle_eq "(x1+x2)*x3" [tvar "x1", tvar "x2", tplus, tvar "x3", ttimes]
    ds rl fns (by rfl)] at h1
  rw [runSingle_eq "x1*x3+x2*x3"
    [tvar "x1", tvar "x3", ttimes, tvar "x2", tvar "x3", ttimes, tplus]
    ds rl fns (by rfl)] at h2
  obtain ⟨a1, a2, a3, hv1, hv2, hv3, hc1⟩ := evalA _ _ h1
  obtain ⟨b1, b2, b3, hw1, hw2, hw3, hc2⟩ := evalB _ _ h2
  rw [hv1] at hw1
  rw [hv2] at hw2
  rw [hv3] at hw3
  have e1 : a1 = b1 := by simpa using hw1
  have e2 : a2 = b2 := by simpa using hw2
  have e3 : a3 = b3 := by simpa using hw3
  subst e1
  subst e2
  subst e3
  have hok : ∀ na, ((List.lookup na
      ((⟨ds, rl, (setCodes ds rl).1, (setCodes ds rl).2, fns⟩ : Env).codes)).getD []).length =
      ((List.lookup na
      ((⟨ds, rl, (setCodes ds rl).1, (setCodes ds rl).2, fns⟩ : Env).facNames)).getD []).length := by
    intro na
    exact setCodesLoop_len ds rl ds.names [] [] (fun m => rfl) na
  have hwf : a1.Names.length = a1.Data.length :=
    convVal_wf ⟨ds, rl, (setCodes ds rl).1, (setCodes ds rl).2, fns⟩ hok "x1" a1 hv1
  rw [hc1, hc2]
  exact congrArg (ColSet.Extend ⟨[], []⟩) (doTimesCS_distrib a1 a2 a3 hwf)

/-- C4 witness: the distribution theorem applied to a concrete data
source with three numeric columns, both hypotheses discharged by
evaluation. -/
theorem C4_witness :
    (⟨["x1:x3", "x2:x3"], [[5, 12], [15, 24]]⟩ : ColSet) =
      ⟨["x1:x3", "x2:x3"], [[5, 12], [15, 24]]⟩ :=
  C4_interaction_distributes dsW4 [] []
    ⟨["x1:x3", "x2:x3"], [[5, 12], [15, 24]]⟩
    ⟨["x1:x3", "x2:x3"], [[5, 12], [15, 24]]⟩ (by decide) (by decide)

end FormulaGo
